import Mathlib

/-!
Verification development for the `limp` dependency manager.

The Rust sources are embedded shallowly:

* `src/error.rs`   → `Limp.LimpError` (the string-carrying variants; payloads of
  wrapped foreign errors — io / http / serde — are abstracted to their message
  strings).
* `src/crates.rs`  → `Limp.Crate`, `Limp.Version`, `Limp.CratesIoDependency`.
  The Rust code keeps each version as a raw `serde_json::Value` and decodes it
  on access; here the metadata document is modelled already decoded, so
  `get_all_versions` returns the version list and `get_version` indexes it.
  A `Version.features` of `none` covers both an absent `features` field and a
  field that is not a JSON object, exactly the cases where the Rust
  `Version::get_features` returns `None`.
* `src/storage.rs` → `Limp.JsonDependency`, `Limp.JsonStorage` and their
  operations.  The `HashMap<String, JsonDependency>` is modelled as an
  association list with overwrite-on-insert (`mapInsert`); the store's real
  invariant (at most one record per name) appears as `Nodup` hypotheses.
* Effects: the crates.io fetch, the snippet source file and the snippet text
  extraction (`parser.rs`) are inputs of an `Env` record; the managed snippet
  directory (`files.rs`) is an association list from snippet name to file
  content threaded through the functions that touch it; the store file is a
  JSON document (`Limp.Json`), with `serde_json`'s text layer identified with
  the document it parses to (`none` standing for an absent, empty or
  syntactically invalid file).
* `src/actions.rs` → `runNewDependency`, `runUpdateAction`,
  `normalizeVersionArg` for the command bodies the claims mention.
-/

namespace Limp

/-- Errors of `src/error.rs` (`LimpError`); foreign payloads are abstracted to
their rendered message strings. -/
inductive LimpError where
  | IOError (msg : String)
  | CrateExists (s : String)
  | CrateExistsNotEmpty (s : String)
  | ParserError (msg : String)
  | GitError (s : String)
  | HttpError (msg : String)
  | CrateNotFound (s : String)
  | VersionNotFound (s : String)
  | SnippetNotFound (s : String)
  | SnippetExists (s : String)
  | IncompatibleFeatures (s : String)
  | CargoTomlNotFound (s : String)
  | EmptyFile (s : String)
  | NotSupported (s : String)
  | DependencyNotFound (s : String)
  | DependencyAlreadyExists (s : String)
deriving DecidableEq, Repr

/-- Metadata of one crate version (`crates.rs`, `struct Version`); `features`
holds the key set of the per-version feature map when that field is a JSON
object, and `none` otherwise. -/
structure Version where
  crate_name : String
  features : Option (List String)
  num : String
deriving DecidableEq, Repr

/-- Rust `Version::get_features` (`crates.rs`). -/
def Version.get_features (v : Version) : Option (List String) :=
  v.features

/-- Crate-level metadata (`crates.rs`, `struct Crate`). -/
structure Crate where
  name : String
  max_version : String
deriving DecidableEq, Repr

/-- Fetched metadata document (`crates.rs`, `struct CratesIoDependency`),
with its versions already decoded (see the module comment). -/
structure CratesIoDependency where
  crate_info : Crate
  versions : List Version
deriving DecidableEq, Repr

/-- Rust `CratesIoDependency::get_all_versions` (`crates.rs`). -/
def CratesIoDependency.get_all_versions (c : CratesIoDependency) : List Version :=
  c.versions

/-- Rust `CratesIoDependency::get_version` (`crates.rs`): index into the
version list, `VersionNotFound` on an out-of-range id. -/
def CratesIoDependency.get_version (c : CratesIoDependency) (id : Nat) :
    Except LimpError Version :=
  match c.versions.get? id with
  | some v => .ok v
  | none => .error (.VersionNotFound (c.crate_info.name ++ "/" ++ toString id))

/-- One persisted dependency record (`storage.rs`, `struct JsonDependency`). -/
structure JsonDependency where
  name : String
  version : String
  features : Option (List String)
  path_to_snippet : Option String
deriving DecidableEq, Repr

/-- Rust `str::replace` for a single-character pattern: every occurrence of
`a` becomes `b`. -/
def replaceChar (s : String) (a b : Char) : String :=
  String.mk (s.data.map (fun c => if c = a then b else c))

/-- Rust `Vec::join(", ")` as used by the `Display` impl in `storage.rs`. -/
def joinComma : List String → String
  | [] => ""
  | [x] => x
  | x :: y :: rest => x ++ ", " ++ joinComma (y :: rest)

/-- The `Display` impl for `JsonDependency` (`storage.rs` lines 39-61): with
features it formats `name = (version = "v", features = [..])` and then
rewrites every `(` to `\x7b` and every `)` to `\x7d` in the whole string;
without features it formats `name = "version"`. -/
def JsonDependency.display (d : JsonDependency) : String :=
  match d.features with
  | some features =>
      let deps := joinComma (features.map (fun f => "\"" ++ f ++ "\""))
      replaceChar
        (replaceChar
          (d.name ++ " = (version = \"" ++ d.version ++ "\", features = [" ++ deps ++ "])")
          '(' '\x7b')
        ')' '\x7d'
  | none => d.name ++ " = \"" ++ d.version ++ "\""

/-- Rendering that the spec describes (§4.3 and the C6 scenario), written from
the spec's words to compare with the code's `JsonDependency.display`: the
fields appear verbatim and the braces are padded with spaces. -/
def specManifestForm (d : JsonDependency) : String :=
  match d.features with
  | some features =>
      d.name ++ " = \x7b version = \"" ++ d.version ++ "\", features = [" ++
        joinComma (features.map (fun f => "\"" ++ f ++ "\"")) ++ "] \x7d"
  | none => d.name ++ " = \"" ++ d.version ++ "\""

/-- Managed snippet directory (`files.rs`): the set of snippet files the tool
owns, as an association list from dependency name to file content. -/
abbrev SnipDir := List (String × String)

/-- File name used inside the snippet directory for a dependency
(`files.rs`: `snippets_dir().join(format!("\x7bname\x7d.rs"))`); the
platform- and user-dependent directory prefix is elided. -/
def snippetFilePath (name : String) : String :=
  name ++ ".rs"

/-- Rust `add_to_snippets_dir` (`files.rs` lines 142-151): refuse to overwrite
an existing managed snippet, otherwise create the file and return its path. -/
def add_to_snippets_dir (dir : SnipDir) (name content : String) :
    Except LimpError (String × SnipDir) :=
  if (dir.lookup name).isSome then
    .error (.SnippetExists name)
  else
    .ok (snippetFilePath name, (name, content) :: dir)

/-- External effects consumed by the reconciliation engine: the crates.io
fetch (`CratesIoDependency::from_cratesio`), existence of a snippet source
file (`PathBuf::exists`), and snippet text extraction
(`SnippetEntity::from_file` followed by `to_string`, from `parser.rs`). -/
structure Env where
  fetch : String → Except LimpError CratesIoDependency
  pathExists : String → Bool
  parseSnippet : String → Except LimpError String

/-- Rust `JsonDependency::new` (`storage.rs` lines 75-83). -/
def JsonDependency.new (env : Env) (name : String) : Except LimpError JsonDependency :=
  match env.fetch name with
  | .error e => .error e
  | .ok crateiodep =>
      match crateiodep.get_version 0 with
      | .error e => .error e
      | .ok v0 =>
          .ok { name := name, version := v0.num, features := none, path_to_snippet := none }

/-- The snippet block of `JsonDependency::new_full` (`storage.rs` lines
107-118): a missing source file or a failing extraction aborts the call, but
an `add_to_snippets_dir` failure is discarded by the `if let Ok(p)` pattern,
leaving the result path unset and the directory untouched. -/
def snippetStage (env : Env) (dir : SnipDir) (name : String) :
    Option String → Except LimpError (Option String × SnipDir)
  | none => .ok (none, dir)
  | some path =>
      if env.pathExists path then
        match env.parseSnippet path with
        | .error e => .error e
        | .ok content =>
            match add_to_snippets_dir dir name content with
            | .ok (p, dir') => .ok (some p, dir')
            | .error _ => .ok (none, dir)
      else .error (.SnippetNotFound path)

/-- The version and feature validation of `JsonDependency::new_full`
(`storage.rs` lines 120-139): nothing is checked unless a version was
requested; an exact string match on `num` is required, and then every
requested feature must occur in that version's feature keys. -/
def versionFeatureCheck (name : String) (crateiodep : CratesIoDependency)
    (version : Option String) (features : Option (List String)) :
    Except LimpError Unit :=
  match version with
  | none => .ok ()
  | some v =>
      match crateiodep.get_all_versions.find? (fun x => x.num == v) with
      | none => .error (.VersionNotFound (name ++ "/" ++ v))
      | some finded_version =>
          match features with
          | none => .ok ()
          | some fs =>
              match finded_version.get_features with
              | none => .error (.IncompatibleFeatures (name ++ "/" ++ v))
              | some finded_features =>
                  if fs.all (fun f => finded_features.contains f) then .ok ()
                  else .error (.IncompatibleFeatures (name ++ "/" ++ v))

/-- Rust `JsonDependency::new_full` (`storage.rs` lines 99-149).  The stages
run in source order: fetch, snippet block, version/feature validation, then
the record is built; `get_version(0)` is evaluated unconditionally because it
is the eagerly evaluated argument of `unwrap_or`. -/
def JsonDependency.new_full (env : Env) (dir : SnipDir) (name : String)
    (version : Option String) (features : Option (List String))
    (path_to_snippet : Option String) :
    Except LimpError (JsonDependency × SnipDir) :=
  match env.fetch name with
  | .error e => .error e
  | .ok crateiodep =>
      match snippetStage env dir name path_to_snippet with
      | .error e => .error e
      | .ok (result_path, dir') =>
          match versionFeatureCheck name crateiodep version features with
          | .error e => .error e
          | .ok _ =>
              match crateiodep.get_version 0 with
              | .error e => .error e
              | .ok v0 =>
                  .ok ({ name := name, version := version.getD v0.num,
                         features := features, path_to_snippet := result_path }, dir')

/-- Rust `JsonDependency::update` (`storage.rs` lines 159-163) on an explicit
record: the pair holds the `Result` and the record after the call, which is
only mutated once both the fetch and `get_version(0)` have succeeded. -/
def updateRun (env : Env) (d : JsonDependency) :
    Except LimpError Unit × JsonDependency :=
  match env.fetch d.name with
  | .error e => (.error e, d)
  | .ok crateiodep =>
      match crateiodep.get_version 0 with
      | .error e => (.error e, d)
      | .ok v0 => (.ok (), { d with version := v0.num })

/-- Rust `str::split(".")` restricted to what `CommandHandler::parse`
consumes: the list of dot-separated pieces of the character list, with `acc`
the current piece (reversed) and `out` the finished pieces. -/
def splitDot : List Char → List Char → List (List Char) → List (List Char)
  | [], acc, out => out ++ [acc.reverse]
  | c :: rest, acc, out =>
      if c = '.' then splitDot rest [] (out ++ [acc.reverse])
      else splitDot rest (c :: acc) out

/-- Version-argument normalization inside `CommandHandler::parse`
(`actions.rs` lines 177-193): the argument is split on `.` (the `u16` parse
of each piece does not change how many pieces there are), one or two pieces
are padded to three, three pieces pass through, and any other count hits
`unreachable!()` — modelled as `none`. -/
def normalizeVersionArg (v : String) : Option String :=
  match (splitDot v.data [] []).length with
  | 3 => some v
  | 2 => some (v ++ ".0")
  | 1 => some (v ++ ".0.0")
  | _ => none

/-- JSON documents, as far as the store format exercises them. -/
inductive Json where
  | null
  | bool (b : Bool)
  | num (n : Int)
  | str (s : String)
  | arr (elems : List Json)
  | obj (fields : List (String × Json))

/-- The persisted collection (`storage.rs`, `struct JsonStorage`); the
`HashMap` is modelled as an association list, see the module comment. -/
structure JsonStorage where
  dependencies : List (String × JsonDependency)
deriving DecidableEq, Repr

/-- Insert-or-overwrite by key, the `HashMap::insert` of the model. -/
def mapInsert {α : Type} (m : List (String × α)) (k : String) (v : α) :
    List (String × α) :=
  if m.any (fun p => p.1 == k) then
    m.map (fun p => if p.1 == k then (k, v) else p)
  else m ++ [(k, v)]

/-- Rust `JsonStorage::add` (`storage.rs` lines 221-223). -/
def JsonStorage.add (s : JsonStorage) (dep : JsonDependency) : JsonStorage :=
  ⟨mapInsert s.dependencies dep.name dep⟩

/-- Serialization of one record by `serde_json` (field order is declaration
order; an absent optional field serializes as `null` since the struct has no
skip attribute). -/
def encodeDep (d : JsonDependency) : Json :=
  .obj [("name", .str d.name),
        ("version", .str d.version),
        ("features", match d.features with
          | none => .null
          | some l => .arr (l.map .str)),
        ("path_to_snippet", match d.path_to_snippet with
          | none => .null
          | some s => .str s)]

/-- Serialization of the whole store: one `dependencies` object keyed by
name. -/
def encodeStorage (s : JsonStorage) : Json :=
  .obj [("dependencies", .obj (s.dependencies.map (fun p => (p.1, encodeDep p.2))))]

/-- Struct-field access during deserialization: first binding of the key. -/
def getField (fields : List (String × Json)) (k : String) : Option Json :=
  fields.lookup k

/-- Deserialization of a JSON array as `Vec<String>`. -/
def decodeStrList : Json → Option (List String)
  | .arr l => l.mapM (fun j => match j with | .str s => some s | _ => none)
  | _ => none

/-- Deserialization of the `features` field: absent (serde default) or `null`
gives `None`, an array of strings gives `Some`, anything else is an error. -/
def decodeFeatures : Option Json → Option (Option (List String))
  | none => some none
  | some .null => some none
  | some j => (decodeStrList j).map some

/-- Deserialization of the `path_to_snippet` field. -/
def decodeSnippet : Option Json → Option (Option String)
  | none => some none
  | some .null => some none
  | some (.str s) => some (some s)
  | some _ => none

/-- Deserialization of one record: `name` and `version` are required strings,
the optional fields go through their field decoders. -/
def decodeDep : Json → Option JsonDependency
  | .obj fields =>
      match getField fields "name" with
      | some (.str name) =>
          match getField fields "version" with
          | some (.str version) =>
              match decodeFeatures (getField fields "features") with
              | some features =>
                  match decodeSnippet (getField fields "path_to_snippet") with
                  | some path => some ⟨name, version, features, path⟩
                  | none => none
              | none => none
          | _ => none
      | _ => none
  | _ => none

/-- Deserialization of the `dependencies` map: decode each entry and insert
it into the map in document order, as `serde` fills the `HashMap`. -/
def decodeDeps (fields : List (String × Json)) :
    Option (List (String × JsonDependency)) :=
  (fields.mapM (fun p => (decodeDep p.2).map (fun d => (p.1, d)))).map
    (fun l => l.foldl (fun m p => mapInsert m p.1 p.2) [])

/-- Deserialization of the whole store document; the `dependencies` field has
a serde default, so its absence yields the empty map. -/
def decodeStorage : Json → Option JsonStorage
  | .obj fields =>
      match getField fields "dependencies" with
      | none => some ⟨[]⟩
      | some (.obj deps) => (decodeDeps deps).map (fun l => ⟨l⟩)
      | some _ => none
  | _ => none

/-- Content of the store file written by `JsonStorage::save` (`storage.rs`
lines 204-211): the file is truncated and the serialization is the new
content. -/
def JsonStorage.save (s : JsonStorage) : Json :=
  encodeStorage s

/-- The store produced by reading a file: an absent, empty or syntactically
invalid file is `none`, and any document `serde_json` cannot interpret as a
store falls back to the default store, mirroring the
`unwrap_or(JsonStorage::default())`. -/
def loadStore (file : Option Json) : JsonStorage :=
  (file.bind decodeStorage).getD ⟨[]⟩

/-- Rust `JsonStorage::load` (`storage.rs` lines 189-192); `files::open`
creates a missing file, so in this model reading never fails and the fallback
makes the result always `Ok`. -/
def JsonStorage.load (file : Option Json) : Except LimpError JsonStorage :=
  .ok (loadStore file)

/-- Body of the `new` subcommand (`actions.rs` lines 253-271) after the store
has been loaded: build the full record, insert it, and save. -/
def runNewDependency (env : Env) (dir : SnipDir) (store : JsonStorage)
    (name : String) (version : Option String) (features : Option (List String))
    (path : Option String) : Except LimpError (JsonStorage × SnipDir) :=
  match JsonDependency.new_full env dir name version features path with
  | .error e => .error e
  | .ok (jd, dir') => .ok (store.add jd, dir')

/-- Store-file content after the `new` subcommand: only a successful run
reaches `js.save`, otherwise the old content stays. -/
def persistedAfterNew (old : Json) (r : Except LimpError (JsonStorage × SnipDir)) :
    Json :=
  match r with
  | .ok (s, _) => s.save
  | .error _ => old

/-- The `try_for_each(|d| d.update())` of the `update` subcommand
(`actions.rs` lines 352-360): records are refreshed in order and the first
failure aborts the traversal. -/
def updatePairs (env : Env) :
    List (String × JsonDependency) → Except LimpError (List (String × JsonDependency))
  | [] => .ok []
  | (k, d) :: rest =>
      match updateRun env d with
      | (.error e, _) => .error e
      | (.ok _, d') =>
          match updatePairs env rest with
          | .error e => .error e
          | .ok rest' => .ok ((k, d') :: rest')

/-- Body of the `update` subcommand after the store has been loaded: refresh
every record, then save once at the end. -/
def runUpdateAction (env : Env) (store : JsonStorage) :
    Except LimpError JsonStorage :=
  match updatePairs env store.dependencies with
  | .error e => .error e
  | .ok deps => .ok ⟨deps⟩

/-- Store-file content after the `update` subcommand: the single save at the
end only happens when every refresh succeeded. -/
def persistedAfterUpdate (old : Json) (r : Except LimpError JsonStorage) : Json :=
  match r with
  | .ok s => s.save
  | .error _ => old

/-- Characters that the `Display` rewrite of `storage.rs` leaves alone: the
string contains no parenthesis of either kind. -/
def noParens (s : String) : Bool :=
  s.data.all (fun c => !(c = '(' || c = ')'))

/-- Concrete metadata document used by the example theorems: two versions,
newest first, each with one feature key. -/
def serdeDep : CratesIoDependency :=
  ⟨⟨"serde", "1.0.0"⟩,
   [⟨"serde", some ["derive"], "1.0.0"⟩, ⟨"serde", some ["std"], "0.9.0"⟩]⟩

/-- Environment for the example theorems: every fetch returns `serdeDep`,
snippet source files exist and extract to a fixed text. -/
def testEnv : Env :=
  ⟨fun _ => .ok serdeDep, fun _ => true, fun _ => .ok "snippet text"⟩

/-- Environment whose fetch only knows the crate `serde`, used to exercise
failing refreshes. -/
def flakyEnv : Env :=
  ⟨fun n => if n == "serde" then .ok serdeDep else .error (.CrateNotFound n),
   fun _ => true, fun _ => .ok "snippet text"⟩

end Limp

deriving instance DecidableEq for Except

namespace Limp

/-- C10: a `new` version argument with four or more dot-separated components
(such as "1.2.3.4") drives the normalization in `CommandHandler::parse` into
`unreachable!()` (modelled as `none`), while one- and two-component versions
are padded to three components and three-component versions pass through. -/
theorem c10_version_arg_normalization :
    normalizeVersionArg "1.2.3.4" = none ∧
    normalizeVersionArg "1" = some "1.0.0" ∧
    normalizeVersionArg "0.25" = some "0.25.0" ∧
    normalizeVersionArg "1.2.3" = some "1.2.3" := by
  refine ⟨?_, ?_, ?_, ?_⟩ <;> decide

/-- C3: when the fetched metadata has at least one version, `resolve_default`
(`JsonDependency::new`) returns a record whose version is the number at index
0 of the metadata's version sequence, with features and snippet path unset. -/
theorem c3_default_resolution (env : Env) (name : String)
    (dep : CratesIoDependency) (v : Version) (rest : List Version)
    (hfetch : env.fetch name = .ok dep) (hv : dep.versions = v :: rest) :
    JsonDependency.new env name =
      .ok { name := name, version := v.num, features := none, path_to_snippet := none } := by
  simp [JsonDependency.new, hfetch, CratesIoDependency.get_version, hv]

/-- Witness for C3 at a concrete environment. -/
theorem c3_witness :
    testEnv.fetch "serde" = .ok serdeDep ∧
    JsonDependency.new testEnv "serde" =
      .ok { name := "serde", version := "1.0.0", features := none, path_to_snippet := none } :=
  ⟨rfl, c3_default_resolution testEnv "serde" serdeDep
    ⟨"serde", some ["derive"], "1.0.0"⟩ [⟨"serde", some ["std"], "0.9.0"⟩] rfl rfl⟩

/-- C9: a successful refresh (`JsonDependency::update`) overwrites only the
version field with the new metadata's index-0 version number and keeps name,
features and snippet path; if the fetch fails, or the fetched metadata has no
versions, the record is returned unchanged alongside the error. -/
theorem c9_refresh_frame :
    (∀ (env : Env) (d : JsonDependency) (dep : CratesIoDependency)
        (v : Version) (rest : List Version),
      env.fetch d.name = .ok dep → dep.versions = v :: rest →
      updateRun env d =
        (.ok (), { name := d.name, version := v.num, features := d.features,
                   path_to_snippet := d.path_to_snippet })) ∧
    (∀ (env : Env) (d : JsonDependency) (e : LimpError),
      env.fetch d.name = .error e → updateRun env d = (.error e, d)) ∧
    (∀ (env : Env) (d : JsonDependency) (dep : CratesIoDependency),
      env.fetch d.name = .ok dep → dep.versions = [] →
      updateRun env d =
        (.error (.VersionNotFound (dep.crate_info.name ++ "/" ++ toString 0)), d)) := by
  refine ⟨?_, ?_, ?_⟩
  · intro env d dep v rest hfetch hv
    simp [updateRun, hfetch, CratesIoDependency.get_version, hv]
  · intro env d e hfetch
    simp [updateRun, hfetch]
  · intro env d dep hfetch hv
    simp [updateRun, hfetch, CratesIoDependency.get_version, hv]

/-- Witness for C9 at a concrete environment. -/
theorem c9_witness :
    testEnv.fetch "serde" = .ok serdeDep ∧
    updateRun testEnv ⟨"serde", "0.5.0", some ["derive"], some "serde.rs"⟩ =
      (.ok (), ⟨"serde", "1.0.0", some ["derive"], some "serde.rs"⟩) :=
  ⟨rfl, c9_refresh_frame.1 testEnv ⟨"serde", "0.5.0", some ["derive"], some "serde.rs"⟩
    serdeDep ⟨"serde", some ["derive"], "1.0.0"⟩ [⟨"serde", some ["std"], "0.9.0"⟩] rfl rfl⟩

/-- C7: `JsonStorage::load` never returns an error: an absent or empty or
syntactically invalid file and a document that does not deserialize as a
store all produce the empty store. -/
theorem c7_load_resilient :
    JsonStorage.load none = .ok ⟨[]⟩ ∧
    (∀ j : Json, decodeStorage j = none → JsonStorage.load (some j) = .ok ⟨[]⟩) ∧
    (∀ file : Option Json, ∃ s, JsonStorage.load file = .ok s) := by
  refine ⟨rfl, ?_, ?_⟩
  · intro j h
    simp [JsonStorage.load, loadStore, h]
  · intro file
    exact ⟨loadStore file, rfl⟩

/-- Witness for C7 at a concrete undeserializable document. -/
theorem c7_witness :
    decodeStorage (.str "corrupt") = none ∧
    JsonStorage.load (some (.str "corrupt")) = .ok ⟨[]⟩ :=
  ⟨rfl, c7_load_resilient.2.1 (.str "corrupt") rfl⟩

/-- C1 counterexample: with the version left to default, a feature absent
from every version's feature set does not fail the call; `new_full` succeeds
and stores the unvalidated feature list, contrary to the claim that such a
call errors with incompatible-features. -/
theorem c1_counterexample :
    testEnv.fetch "serde" = .ok serdeDep ∧
    serdeDep.versions.map Version.get_features = [some ["derive"], some ["std"]] ∧
    ("nope" ∈ (["derive"] : List String) → False) ∧
    ("nope" ∈ (["std"] : List String) → False) ∧
    JsonDependency.new_full testEnv [] "serde" none (some ["nope"]) none =
      .ok ({ name := "serde", version := "1.0.0", features := some ["nope"],
             path_to_snippet := none }, []) := by
  refine ⟨rfl, rfl, ?_, ?_, ?_⟩ <;> decide

/-- C1 amended: only when a version is explicitly requested does `new_full`
validate the feature list; in that case any requested feature absent from the
matched version's feature set makes the call fail with
`IncompatibleFeatures`, provided the earlier snippet stage did not abort. -/
theorem c1_explicit_version_feature_check
    (env : Env) (dir : SnipDir) (name v f : String) (fs : List String)
    (path : Option String) (sd : Option String × SnipDir)
    (dep : CratesIoDependency) (fv : Version)
    (hfetch : env.fetch name = .ok dep)
    (hsnip : snippetStage env dir name path = .ok sd)
    (hfind : dep.get_all_versions.find? (fun x => x.num == v) = some fv)
    (hmem : f ∈ fs)
    (habs : f ∉ fv.get_features.getD []) :
    JsonDependency.new_full env dir name (some v) (some fs) path =
      .error (.IncompatibleFeatures (name ++ "/" ++ v)) := by
  obtain ⟨rp, dir'⟩ := sd
  have hvfc : versionFeatureCheck name dep (some v) (some fs) =
      .error (.IncompatibleFeatures (name ++ "/" ++ v)) := by
    cases hgf : fv.get_features with
    | none => simp only [versionFeatureCheck, hfind, hgf]
    | some ff =>
        rw [hgf] at habs
        have hc : ff.contains f = false := by
          rw [Bool.eq_false_iff]
          intro hct
          exact habs (by simpa using hct)
        have hall : fs.all (fun x => ff.contains x) = false := by
          rw [Bool.eq_false_iff]
          intro hct
          rw [List.all_eq_true] at hct
          have := hct f hmem
          rw [hc] at this
          exact Bool.false_ne_true this
        simp only [versionFeatureCheck, hfind, hgf, hall]
        rfl
  simp [JsonDependency.new_full, hfetch, hsnip, hvfc]

/-- Witness for the amended C1 at a concrete environment. -/
theorem c1_witness :
    testEnv.fetch "serde" = .ok serdeDep ∧
    serdeDep.get_all_versions.find? (fun x => x.num == "1.0.0") =
      some ⟨"serde", some ["derive"], "1.0.0"⟩ ∧
    JsonDependency.new_full testEnv [] "serde" (some "1.0.0") (some ["nope"]) none =
      .error (.IncompatibleFeatures ("serde" ++ "/" ++ "1.0.0")) :=
  ⟨rfl, by decide,
    c1_explicit_version_feature_check testEnv [] "serde" "1.0.0" "nope" ["nope"] none
      (none, []) serdeDep ⟨"serde", some ["derive"], "1.0.0"⟩ rfl rfl (by decide)
      (by decide) (by decide)⟩

/-- C2 counterexample: a call whose derived managed-snippet name collides with
an existing managed snippet does not fail: `add_to_snippets_dir` does return
`SnippetExists`, but `new_full` discards that error, succeeds with the
snippet path unset, and leaves the existing managed snippet in place. -/
theorem c2_counterexample :
    add_to_snippets_dir [("serde", "old content")] "serde" "snippet text" =
      .error (.SnippetExists "serde") ∧
    JsonDependency.new_full testEnv [("serde", "old content")] "serde" none none
        (some "snip.txt") =
      .ok ({ name := "serde", version := "1.0.0", features := none,
             path_to_snippet := none }, [("serde", "old content")]) := by
  refine ⟨?_, ?_⟩ <;> decide

/-- C2 amended: on a managed-snippet name collision, `add_to_snippets_dir`
fails with `SnippetExists` and the existing snippet is not overwritten, but
`new_full` swallows that failure (`if let Ok(p)`), so the call succeeds with
the record's snippet path unset and the snippet directory unchanged. -/
theorem c2_collision_swallowed
    (env : Env) (dir : SnipDir) (name path content : String)
    (dep : CratesIoDependency) (v : Version) (rest : List Version)
    (hexist : (dir.lookup name).isSome)
    (hpe : env.pathExists path = true)
    (hps : env.parseSnippet path = .ok content)
    (hfetch : env.fetch name = .ok dep)
    (hv : dep.versions = v :: rest) :
    add_to_snippets_dir dir name content = .error (.SnippetExists name) ∧
    JsonDependency.new_full env dir name none none (some path) =
      .ok ({ name := name, version := v.num, features := none,
             path_to_snippet := none }, dir) := by
  constructor
  · simp [add_to_snippets_dir, hexist]
  · simp [JsonDependency.new_full, hfetch, snippetStage, hpe, hps,
      add_to_snippets_dir, hexist, versionFeatureCheck,
      CratesIoDependency.get_version, hv]

/-- Witness for the amended C2 at a concrete environment. -/
theorem c2_witness :
    (([("serde", "old content")] : SnipDir).lookup "serde").isSome ∧
    JsonDependency.new_full testEnv [("serde", "old content")] "serde" none none
        (some "snip.txt") =
      .ok ({ name := "serde", version := "1.0.0", features := none,
             path_to_snippet := none }, [("serde", "old content")]) :=
  ⟨by decide,
    (c2_collision_swallowed testEnv [("serde", "old content")] "serde" "snip.txt"
      "snippet text" serdeDep ⟨"serde", some ["derive"], "1.0.0"⟩
      [⟨"serde", some ["std"], "0.9.0"⟩] (by decide) rfl rfl rfl rfl).2⟩

/-- C4: when the requested version string is not exactly equal to any version
number of the fetched metadata, `new_full` fails with `VersionNotFound`
naming the queried name/version pair (provided the snippet stage, which runs
first, did not abort), the `new` command therefore fails before its save, and
the store file keeps its previous content. -/
theorem c4_version_not_found
    (env : Env) (dir : SnipDir) (store : JsonStorage) (name v : String)
    (features : Option (List String)) (path : Option String)
    (sd : Option String × SnipDir) (dep : CratesIoDependency)
    (hfetch : env.fetch name = .ok dep)
    (hsnip : snippetStage env dir name path = .ok sd)
    (habs : ∀ x ∈ dep.get_all_versions, x.num ≠ v) :
    JsonDependency.new_full env dir name (some v) features path =
      .error (.VersionNotFound (name ++ "/" ++ v)) ∧
    runNewDependency env dir store name (some v) features path =
      .error (.VersionNotFound (name ++ "/" ++ v)) ∧
    persistedAfterNew store.save
      (runNewDependency env dir store name (some v) features path) = store.save := by
  have hfind : dep.get_all_versions.find? (fun x => x.num == v) = none := by
    rw [List.find?_eq_none]
    intro x hx
    simpa using habs x hx
  obtain ⟨rp, dir'⟩ := sd
  have h1 : JsonDependency.new_full env dir name (some v) features path =
      .error (.VersionNotFound (name ++ "/" ++ v)) := by
    simp [JsonDependency.new_full, hfetch, hsnip, versionFeatureCheck, hfind]
  refine ⟨h1, ?_, ?_⟩ <;> simp [runNewDependency, persistedAfterNew, h1]

/-- Witness for C4 at a concrete environment. -/
theorem c4_witness :
    (∀ x ∈ serdeDep.get_all_versions, x.num ≠ "9.9.9") ∧
    runNewDependency testEnv [] ⟨[]⟩ "serde" (some "9.9.9") none none =
      .error (.VersionNotFound ("serde" ++ "/" ++ "9.9.9")) :=
  ⟨by decide,
    (c4_version_not_found testEnv [] ⟨[]⟩ "serde" "9.9.9" none none (none, [])
      serdeDep rfl rfl (by decide)).2.1⟩

/-- Helper for C8: the refresh traversal propagates the first failing
record's error when every record before it refreshes cleanly. -/
theorem updatePairs_first_error (env : Env) (k : String) (d : JsonDependency)
    (post : List (String × JsonDependency)) (e : LimpError)
    (hd : (updateRun env d).1 = .error e) :
    ∀ pre : List (String × JsonDependency),
      (∀ p ∈ pre, (updateRun env p.2).1 = .ok ()) →
      updatePairs env (pre ++ (k, d) :: post) = .error e := by
  intro pre
  induction pre with
  | nil =>
      intro _
      rcases hu : updateRun env d with ⟨r, d2⟩
      rw [hu] at hd
      simp only at hd
      subst hd
      simp [updatePairs, hu]
  | cons p pre ih =>
      intro hpre
      obtain ⟨k0, d0⟩ := p
      have h0 := hpre (k0, d0) (by simp)
      rcases hu0 : updateRun env d0 with ⟨r0, d0'⟩
      rw [hu0] at h0
      simp only at h0
      subst h0
      have := ih (fun q hq => hpre q (by simp [hq]))
      simp [updatePairs, hu0, this]

/-- Helper for C8: when every refresh succeeds the traversal succeeds. -/
theorem updatePairs_all_ok (env : Env) :
    ∀ deps : List (String × JsonDependency),
      (∀ p ∈ deps, (updateRun env p.2).1 = .ok ()) →
      ∃ l, updatePairs env deps = .ok l := by
  intro deps
  induction deps with
  | nil => exact fun _ => ⟨[], rfl⟩
  | cons p rest ih =>
      intro h
      obtain ⟨k0, d0⟩ := p
      have h0 := h (k0, d0) (by simp)
      rcases hu0 : updateRun env d0 with ⟨r0, d0'⟩
      rw [hu0] at h0
      simp only at h0
      subst h0
      obtain ⟨l, hl⟩ := ih (fun q hq => h q (by simp [hq]))
      exact ⟨(k0, d0') :: l, by simp [updatePairs, hu0, hl]⟩

/-- C8: if refreshing a record of the store fails while every record placed
before it refreshes cleanly, the `update` command surfaces that first error,
the traversal never reaches the remaining records, and the store file keeps
its previous content; if every refresh succeeds, the whole store is saved
once at the end. -/
theorem c8_update_all_policy :
    (∀ (env : Env) (pre : List (String × JsonDependency)) (k : String)
        (d : JsonDependency) (post : List (String × JsonDependency)) (e : LimpError),
      (∀ p ∈ pre, (updateRun env p.2).1 = .ok ()) →
      (updateRun env d).1 = .error e →
      runUpdateAction env ⟨pre ++ (k, d) :: post⟩ = .error e ∧
      persistedAfterUpdate (JsonStorage.save ⟨pre ++ (k, d) :: post⟩)
          (runUpdateAction env ⟨pre ++ (k, d) :: post⟩) =
        JsonStorage.save ⟨pre ++ (k, d) :: post⟩) ∧
    (∀ (env : Env) (deps : List (String × JsonDependency)),
      (∀ p ∈ deps, (updateRun env p.2).1 = .ok ()) →
      ∃ l, runUpdateAction env ⟨deps⟩ = .ok ⟨l⟩ ∧
        persistedAfterUpdate (JsonStorage.save ⟨deps⟩) (runUpdateAction env ⟨deps⟩) =
          JsonStorage.save ⟨l⟩) := by
  constructor
  · intro env pre k d post e hpre hd
    have h1 := updatePairs_first_error env k d post e hd pre hpre
    constructor
    · simp [runUpdateAction, h1]
    · simp [persistedAfterUpdate, runUpdateAction, h1]
  · intro env deps h
    obtain ⟨l, hl⟩ := updatePairs_all_ok env deps h
    exact ⟨l, by simp [runUpdateAction, hl], by simp [persistedAfterUpdate, runUpdateAction, hl]⟩

/-- Witness for C8: one clean record before a record whose crate the index
does not know; the command fails with that error and the file content stays. -/
theorem c8_witness :
    (∀ p ∈ ([("serde", ⟨"serde", "0.5.0", none, none⟩)] :
        List (String × JsonDependency)),
      (updateRun flakyEnv p.2).1 = .ok ()) ∧
    (updateRun flakyEnv ⟨"gone", "0.1.0", none, none⟩).1 =
      .error (.CrateNotFound "gone") ∧
    runUpdateAction flakyEnv
        ⟨[("serde", ⟨"serde", "0.5.0", none, none⟩),
          ("gone", ⟨"gone", "0.1.0", none, none⟩)]⟩ =
      .error (.CrateNotFound "gone") := by
  refine ⟨?_, ?_, ?_⟩
  · decide
  · decide
  · exact (c8_update_all_policy.1 flakyEnv
      [("serde", ⟨"serde", "0.5.0", none, none⟩)] "gone"
      ⟨"gone", "0.1.0", none, none⟩ [] (.CrateNotFound "gone")
      (by decide) (by decide)).1

/-- Helper: single-character replacement distributes over concatenation. -/
theorem replaceChar_append (s t : String) (a b : Char) :
    replaceChar (s ++ t) a b = replaceChar s a b ++ replaceChar t a b := by
  obtain ⟨ls⟩ := s
  obtain ⟨lt⟩ := t
  show String.mk ((ls ++ lt).map fun c => if c = a then b else c) =
    String.mk
      ((ls.map fun c => if c = a then b else c) ++ (lt.map fun c => if c = a then b else c))
  rw [List.map_append]

/-- Helper: replacing a character that does not occur is the identity. -/
theorem replaceChar_eq_self (s : String) (a b : Char) (h : ∀ c ∈ s.data, ¬c = a) :
    replaceChar s a b = s := by
  obtain ⟨l⟩ := s
  show String.mk (l.map fun c => if c = a then b else c) = String.mk l
  congr 1
  have hc : ∀ c ∈ l, (fun c => if c = a then b else c) c = id c := by
    intro c hcl
    simp [h c hcl]
  rw [List.map_congr_left hc, List.map_id]

/-- Helper: `noParens` distributes over concatenation. -/
theorem noParens_append (s t : String) :
    noParens (s ++ t) = (noParens s && noParens t) := by
  obtain ⟨ls⟩ := s
  obtain ⟨lt⟩ := t
  show (ls ++ lt).all _ = _
  rw [List.all_append]
  rfl

/-- Helper: the parenthesis rewrite of the `Display` impl fixes any string
without parentheses. -/
theorem replaceParens_self (s : String) (h : noParens s = true) :
    replaceChar (replaceChar s '(' '\x7b') ')' '\x7d' = s := by
  unfold noParens at h
  rw [List.all_eq_true] at h
  have h1 : ∀ c ∈ s.data, ¬c = '(' := by
    intro c hc
    have := h c hc
    simp at this
    exact this.1
  have h2 : ∀ c ∈ s.data, ¬c = ')' := by
    intro c hc
    have := h c hc
    simp at this
    exact this.2
  rw [replaceChar_eq_self s '(' _ h1, replaceChar_eq_self s ')' _ h2]

/-- Helper: the parenthesis rewrite distributes over concatenation. -/
theorem replaceParens_append (s t : String) :
    replaceChar (replaceChar (s ++ t) '(' '\x7b') ')' '\x7d' =
      replaceChar (replaceChar s '(' '\x7b') ')' '\x7d' ++
        replaceChar (replaceChar t '(' '\x7b') ')' '\x7d' := by
  rw [replaceChar_append, replaceChar_append]

/-- Helper: joining quoted parenthesis-free feature names yields a
parenthesis-free string. -/
theorem joinComma_noParens :
    ∀ fs : List String, (∀ f ∈ fs, noParens f = true) →
      noParens (joinComma (fs.map (fun f => "\"" ++ f ++ "\""))) = true
  | [], _ => by decide
  | [x], h => by
      have hx := h x (by simp)
      have hq : noParens "\"" = true := by decide
      simp only [List.map_cons, List.map_nil, joinComma]
      simp [noParens_append, hx, hq]
  | x :: y :: ys, h => by
      have hx := h x (by simp)
      have hq : noParens "\"" = true := by decide
      have hcomma : noParens ", " = true := by decide
      have hrest := joinComma_noParens (y :: ys) (fun f hf => h f (by simp [hf]))
      simp only [List.map_cons, joinComma] at hrest ⊢
      simp [noParens_append, hx, hq, hcomma, hrest]

/-- C6 counterexample: the record of the claim's own scenario renders with no
space padding inside the braces, so it differs from the spec's
`serde = \x7b version = "1.0.0", features = ["derive"] \x7d` form. -/
theorem c6_counterexample :
    JsonDependency.display ⟨"serde", "1.0.0", some ["derive"], none⟩ ≠
      specManifestForm ⟨"serde", "1.0.0", some ["derive"], none⟩ ∧
    specManifestForm ⟨"serde", "1.0.0", some ["derive"], none⟩ =
      "serde = \x7b version = \"1.0.0\", features = [\"derive\"] \x7d" := by
  refine ⟨?_, ?_⟩ <;> decide

/-- C6 amended: with features the rendering is
`name = \x7bversion = "version", features = ["f1", "f2"]\x7d` — no space
padding inside the braces — with the fields verbatim whenever they contain
no parentheses (a parenthesis in a field is rewritten to a brace); the
claim's serde record renders to exactly that form, and a record without
features renders exactly as `name = "version"`. -/
theorem c6_display_form :
    (∀ (name version : String) (fs : List String) (path : Option String),
      noParens name = true → noParens version = true → (∀ f ∈ fs, noParens f = true) →
      JsonDependency.display ⟨name, version, some fs, path⟩ =
        name ++ " = \x7bversion = \"" ++ version ++ "\", features = [" ++
          joinComma (fs.map (fun f => "\"" ++ f ++ "\"")) ++ "]\x7d") ∧
    (JsonDependency.display ⟨"serde", "1.0.0", some ["derive"], none⟩ =
      "serde = \x7bversion = \"1.0.0\", features = [\"derive\"]\x7d") ∧
    (∀ (name version : String) (path : Option String),
      JsonDependency.display ⟨name, version, none, path⟩ =
        name ++ " = \"" ++ version ++ "\"") := by
  refine ⟨?_, by decide, fun name version path => rfl⟩
  intro name version fs path h1 h2 h3
  show replaceChar (replaceChar
      (name ++ " = (version = \"" ++ version ++ "\", features = [" ++
        joinComma (fs.map (fun f => "\"" ++ f ++ "\"")) ++ "])") '(' '\x7b') ')' '\x7d' = _
  rw [replaceParens_append, replaceParens_append, replaceParens_append,
    replaceParens_append, replaceParens_append]
  have e1 : replaceChar (replaceChar " = (version = \"" '(' '\x7b') ')' '\x7d' =
      " = \x7bversion = \"" := by decide
  have e2 : replaceChar (replaceChar "\", features = [" '(' '\x7b') ')' '\x7d' =
      "\", features = [" := by decide
  have e3 : replaceChar (replaceChar "])" '(' '\x7b') ')' '\x7d' = "]\x7d" := by decide
  rw [replaceParens_self name h1, replaceParens_self version h2,
    replaceParens_self _ (joinComma_noParens fs h3), e1, e2, e3]

/-- Witness for the amended C6 at a concrete record with two features. -/
theorem c6_witness :
    noParens "tokio" = true ∧
    JsonDependency.display ⟨"tokio", "1.2.0", some ["full", "rt"], none⟩ =
      "tokio" ++ " = \x7bversion = \"" ++ "1.2.0" ++ "\", features = [" ++
        joinComma (["full", "rt"].map (fun f => "\"" ++ f ++ "\"")) ++ "]\x7d" :=
  ⟨by decide,
    c6_display_form.1 "tokio" "1.2.0" ["full", "rt"] none (by decide) (by decide)
      (by decide)⟩

/-- Helper: decoding an encoded string array recovers the list. -/
theorem mapM_str_encode :
    ∀ l : List String,
      (l.map Json.str).mapM (fun j => match j with | .str s => some s | _ => none) = some l
  | [] => rfl
  | x :: xs => by
      simp only [List.map_cons, List.mapM_cons, mapM_str_encode xs]
      rfl

/-- Helper: `decodeStrList` inverts the `features` encoding. -/
theorem decodeStrList_encode (l : List String) :
    decodeStrList (.arr (l.map .str)) = some l := by
  simp only [decodeStrList, mapM_str_encode]

/-- Helper: decoding an encoded record recovers the record. -/
theorem decodeDep_encodeDep (d : JsonDependency) : decodeDep (encodeDep d) = some d := by
  rcases d with ⟨n, v, fs, ps⟩
  cases fs with
  | none => cases ps <;> rfl
  | some l =>
      cases ps with
      | none =>
          show (match decodeFeatures (some (.arr (l.map .str))) with
            | some features =>
                (match decodeSnippet (some .null) with
                | some path => some (JsonDependency.mk n v features path)
                | none => none)
            | none => none) = some (JsonDependency.mk n v (some l) none)
          simp only [decodeFeatures, decodeStrList_encode]
          rfl
      | some p =>
          show (match decodeFeatures (some (.arr (l.map .str))) with
            | some features =>
                (match decodeSnippet (some (.str p)) with
                | some path => some (JsonDependency.mk n v features path)
                | none => none)
            | none => none) = some (JsonDependency.mk n v (some l) (some p))
          simp only [decodeFeatures, decodeStrList_encode]
          rfl

/-- Helper: decoding the encoded entry list recovers the entries. -/
theorem mapM_entries_encode :
    ∀ l : List (String × JsonDependency),
      (l.map (fun p => (p.1, encodeDep p.2))).mapM
        (fun p => (decodeDep p.2).map (fun d => (p.1, d))) = some l
  | [] => rfl
  | (k, d) :: rest => by
      simp only [List.map_cons, List.mapM_cons, decodeDep_encodeDep,
        mapM_entries_encode rest]
      rfl

/-- Helper: inserting a fresh key appends the binding. -/
theorem mapInsert_not_mem {α : Type} (m : List (String × α)) (k : String) (v : α)
    (h : ∀ p ∈ m, p.1 ≠ k) : mapInsert m k v = m ++ [(k, v)] := by
  have ha : m.any (fun p => p.1 == k) = false := by
    rw [List.any_eq_false]
    intro p hp
    simpa using h p hp
  simp [mapInsert, ha]

/-- Helper: re-inserting a list of bindings with distinct keys into an
accumulator that keeps the keys distinct reproduces the list. -/
theorem foldl_mapInsert {α : Type} :
    ∀ (l acc : List (String × α)), ((acc ++ l).map Prod.fst).Nodup →
      l.foldl (fun m p => mapInsert m p.1 p.2) acc = acc ++ l
  | [], acc, _ => by simp
  | (k, v) :: rest, acc, h => by
      have hk : ∀ p ∈ acc, p.1 ≠ k := by
        intro p hp hEq
        rw [List.map_append, List.nodup_append] at h
        exact h.2.2 (List.mem_map_of_mem Prod.fst hp) (by simp [hEq])
      rw [List.foldl_cons, mapInsert_not_mem acc k v hk]
      have hrec := foldl_mapInsert rest (acc ++ [(k, v)])
        (by simpa [List.append_assoc] using h)
      rw [hrec]
      simp

/-- Helper: decoding the encoded dependency map recovers the map. -/
theorem decodeDeps_encode (l : List (String × JsonDependency))
    (h : (l.map Prod.fst).Nodup) :
    decodeDeps (l.map (fun p => (p.1, encodeDep p.2))) = some l := by
  unfold decodeDeps
  rw [mapM_entries_encode l]
  simp only [Option.map_some']
  rw [foldl_mapInsert l [] (by simpa using h)]
  simp

/-- C5: for a store satisfying the map invariant (distinct keys), loading a
just-saved store yields an equal store, `load` succeeds with exactly the
saved records, and saving the loaded store reproduces the same file content
as the original save. -/
theorem c5_round_trip (s : JsonStorage) (h : (s.dependencies.map Prod.fst).Nodup) :
    decodeStorage s.save = some s ∧
    JsonStorage.load (some s.save) = .ok s ∧
    (loadStore (some s.save)).save = s.save := by
  have hd : decodeStorage s.save = some s := by
    rcases s with ⟨l⟩
    show (decodeDeps (l.map (fun p => (p.1, encodeDep p.2)))).map
      (fun l => JsonStorage.mk l) = some ⟨l⟩
    rw [decodeDeps_encode l h]
    rfl
  refine ⟨hd, ?_, ?_⟩ <;> simp [JsonStorage.load, loadStore, hd]

/-- Witness for C5 at a concrete two-record store. -/
theorem c5_witness :
    (([("serde", JsonDependency.mk "serde" "1.0.0" (some ["derive"]) none),
       ("tokio", JsonDependency.mk "tokio" "1.2.0" none (some "tokio.rs"))].map
        Prod.fst).Nodup) ∧
    decodeStorage
        (JsonStorage.save
          ⟨[("serde", JsonDependency.mk "serde" "1.0.0" (some ["derive"]) none),
            ("tokio", JsonDependency.mk "tokio" "1.2.0" none (some "tokio.rs"))]⟩) =
      some ⟨[("serde", JsonDependency.mk "serde" "1.0.0" (some ["derive"]) none),
             ("tokio", JsonDependency.mk "tokio" "1.2.0" none (some "tokio.rs"))]⟩ :=
  ⟨by decide,
    (c5_round_trip
      ⟨[("serde", JsonDependency.mk "serde" "1.0.0" (some ["derive"]) none),
        ("tokio", JsonDependency.mk "tokio" "1.2.0" none (some "tokio.rs"))]⟩
      (by decide)).1⟩

end Limp
